import Mathlib

/-
Verification development for the SCOOP cooperative task scheduler and
futures layer (src/scoop/control.py and src/scoop/futures.py).

The embedding is shallow: Python values that the scheduler inspects are
modelled with `Int` (the claims' examples use integers), `None` is `Option`,
Python exceptions are an explicit `PyErr` error kind propagated through
`Except` or recorded in event traces, and generator behaviour is modelled
as the list of events (yields / suspensions / raises) the generator
produces when fully driven.  Wall-clock stopwatch readings (waitTime,
executionTime) are timing telemetry with no influence on control flow and
are not modelled.

Code of the repository that lives in modules missing from src/ (the
`Future` class of `_types.py`, the `_control` module used by futures.py,
the `reduction` helper) is modelled from the spec; each such definition
carries a doc comment starting with `Modelled from the spec:`.
-/

deriving instance DecidableEq for Except

namespace Scoop

/-- Python values handled by the scheduler, modelled as integers. -/
abbrev Value := Int

/-- Kinds of Python exceptions that the modelled code distinguishes.
`notStartedProperly` is the dedicated error of futures.py, `attributeError`
the generic attribute failure, `stopIteration` the exhausted-generator
signal, `typeError` the error functools.reduce raises on an empty iterable
with no initial value, `assertionError` a failed `assert`, and
`userError n` an arbitrary exception raised by a user callable. -/
inductive PyErr where
  | notStartedProperly
  | attributeError
  | stopIteration
  | typeError
  | assertionError
  | userError (n : Nat)
deriving DecidableEq, Repr

/-! ## control.py : TaskId, runTask, runController -/

/-- TaskId as used by control.py: `TaskId(-1, 0)` is the root sentinel and
`task.id.worker` is its first component (the class itself lives in the
missing `.types` module; control.py only builds the pair and projects
`.worker`). -/
structure TaskId where
  worker : Int
  rank : Int
deriving DecidableEq, Repr

/-- Root sentinel id, from `rootId = TaskId(-1, 0)` in runController. -/
def rootId : TaskId := ⟨-1, 0⟩

/-- The fields of a control.py Task that the runController loop inspects:
`task.parentId`, `task.result`, `task.id.worker` (here `idWorker`),
`task.index`, and whether `task.greenlet` is set. -/
structure CTask where
  parentId : TaskId
  idWorker : Int
  result : Option Value
  index : Option Nat
  hasGreenlet : Bool
deriving DecidableEq, Repr

/-- What runController does when its while loop exits: it calls
`execQueue.socket.shutdown()` and returns `task.result`. -/
structure ControllerOut where
  exitTask : CTask
  socketShutdown : Bool
  returned : Option Value
deriving DecidableEq, Repr

/-- The while loop of runController (control.py lines 59-87).  The guard is
exactly line 59: `(task.parentId != rootId or task.result == None) or
is_origin == False`.  Inside the body every reassignment of `task` comes
from `execQueue.pop()` or a greenlet switch, i.e. from the nondeterministic
environment; the `events` list supplies those externally chosen tasks, one
per iteration.  Exhausting `events` means the loop is still running
(`none`); leaving the loop shuts the queue socket down and returns
`task.result`. -/
def runControllerLoop (isOrigin : Bool) : CTask → List CTask → Option ControllerOut
  | task, events =>
    if (task.parentId ≠ rootId ∨ task.result = none) ∨ isOrigin = false then
      match events with
      | [] => none
      | nextTask :: rest => runControllerLoop isOrigin nextTask rest
    else
      some { exitTask := task, socketShutdown := true, returned := task.result }

/-- Events observable while runTask (control.py lines 33-43) executes one
task body: the `assert task.result != None` failing, the done-callback
being invoked, the callback raising (and being swallowed), and runTask
returning the task to the controller. -/
inductive RTEvent where
  | assertFailed
  | callbackInvoked
  | callbackRaised
  | returnedTask
deriving DecidableEq, Repr

/-- The task record runTask operates on: its callable with the stored
arguments, the optional done-callback, and the result slot.  The callable
returns `none` when the Python callable returns `None`; the callback
receives the task after its result slot is filled, so it is modelled as a
function of that result.  Stopwatch bookkeeping (waitTime, executionTime)
is wall-clock telemetry and is not modelled. -/
structure RTask where
  args : List Value
  callable : List Value → Option Value
  callback : Option (Option Value → Except PyErr Unit)
  result : Option Value

/-- Outcome of runTask: the normal return value (the task's now-populated
result) or the escaping exception, together with the event trace. -/
structure RunTaskOut where
  outcome : Except PyErr (Option Value)
  trace : List RTEvent
deriving DecidableEq, Repr

/-- runTask (control.py lines 33-43): run the callable, assert the result
is non-None, then run the callback under a bare `try/except: pass`, then
return the task (its result) to the controller greenlet. -/
def runTask (t : RTask) : RunTaskOut :=
  match t.callable t.args with
  | none => { outcome := Except.error PyErr.assertionError, trace := [RTEvent.assertFailed] }
  | some v =>
    match t.callback with
    | none => { outcome := Except.ok (some v), trace := [RTEvent.returnedTask] }
    | some cb =>
      match cb (some v) with
      | Except.ok _ =>
        { outcome := Except.ok (some v)
          trace := [RTEvent.callbackInvoked, RTEvent.returnedTask] }
      | Except.error _ =>
        { outcome := Except.ok (some v)
          trace := [RTEvent.callbackInvoked, RTEvent.callbackRaised, RTEvent.returnedTask] }

/-! ## futures.py : Future state, _waitAny, _waitAll -/

/-- Modelled from the spec: the observable state of a `Future` from the
missing `_types.py`.  `fid` is the future's identity, `parentId` the id of
the spawning future, `exceptionValue` the exception captured from the user
callable (spec §7: captured on the future, re-raised lazily), `ended` the
boolean the missing method `_ended()` reports (result populated),
`resultValue` the result slot, `index` the wait-cohort position assigned by
`_waitAny`, and `executor` the triple futures.py projects as
`executor[0]`, `executor[1]`, `executor[2]` (worker identity, stable
per-child sequence number, per-child discriminator of the mapReduce
grouping key; spec §3 and §4.4).  `arg` is the stored call argument (a
future carries its callable and arguments; the flows modelled here pass
one zipped value). -/
structure Future where
  fid : Nat
  parentId : Nat
  exceptionValue : Option PyErr
  ended : Bool
  resultValue : Option Value
  index : Option Nat
  executor : Nat × Nat × Nat
  arg : Value := 0
deriving DecidableEq, Repr

/-- Events a futures.py generator produces while driven: yielding a
future, suspending into the controller (`_controller.switch`), or raising
an exception to the consumer. -/
inductive WEvent where
  | yielded (f : Future)
  | suspended
  | raised (e : PyErr)
deriving DecidableEq, Repr

/-- True exactly on `yielded` events. -/
def WEvent.isYield : WEvent → Bool
  | WEvent.yielded _ => true
  | _ => false

/-- The futures produced by a list of generator events, in order. -/
def yieldsOf (evs : List WEvent) : List Future :=
  evs.filterMap fun e =>
    match e with
    | WEvent.yielded f => some f
    | _ => none

/-- The scan phase of `_waitAny` (futures.py lines 279-288): walk the
children in input order with their enumeration index; a child carrying a
captured exception makes the generator raise it (aborting the scan); an
ended child is yielded at once; an unfinished child gets `future.index`
set to its position.  Returns the events produced, the children after the
index assignments, and the count `n` of unfinished children. -/
def waitAnyScan : List Future → Nat → List WEvent × List Future × Nat
  | [], _ => ([], [], 0)
  | f :: rest, i =>
    match f.exceptionValue with
    | some e => ([WEvent.raised e], f :: rest, 0)
    | none =>
      let step := waitAnyScan rest (i + 1)
      if f.ended then
        (WEvent.yielded f :: step.1, f :: step.2.1, step.2.2)
      else
        (step.1, { f with index := some i } :: step.2.1, step.2.2 + 1)

/-- The suspension loop of `_waitAny` (futures.py lines 290-298): while
results remain, switch into the controller (a `suspended` event), receive
a finished child future, re-raise its captured exception if any, otherwise
yield it.  `arrivals` lists the futures the controller injects, in order;
when it is exhausted the generator is blocked inside the switch. -/
def waitAnyLoop : Nat → List Future → List WEvent
  | 0, _ => []
  | _ + 1, [] => [WEvent.suspended]
  | n + 1, a :: rest =>
    match a.exceptionValue with
    | some e => [WEvent.suspended, WEvent.raised e]
    | none => WEvent.suspended :: WEvent.yielded a :: waitAnyLoop n rest

/-- Result of driving one `_waitAny` generator: its events and the
children as left by the scan's index assignments. -/
structure WaitAnyOut where
  events : List WEvent
  marked : List Future
deriving DecidableEq, Repr

/-- `_waitAny(*children)` (futures.py lines 268-298), fully driven:
scan phase followed by the suspension loop. -/
def waitAny (children arrivals : List Future) : WaitAnyOut :=
  let s := waitAnyScan children 0
  { events := s.1 ++ waitAnyLoop s.2.2 arrivals, marked := s.2.1 }

/-- `_waitAll(*children)` (futures.py lines 300-316): for each child in
input order, drive a fresh `_waitAny(child)` to exhaustion and yield
everything it yields.  `deliver` models (from the spec, §4.4: the
Controller "injects a finished child") which future the controller hands
back for a child that was not yet finished. -/
def waitAll (children : List Future) (deliver : Future → Future) : List WEvent :=
  (children.map fun f => (waitAny [f] [deliver f]).events).flatten

/-! ## futures.py : submit, exception capture, mapReduce, mapScan -/

/-- State submit touches besides the current future: the pending-execution
queue it appends to, and the counter from which the next future identity
is drawn. -/
structure SchedState where
  queue : List Future
  nextFid : Nat
deriving DecidableEq, Repr

/-- The Future a successful submit creates: fresh identity, parented to
the current future, nothing resolved yet. -/
def submitChild (cur : Future) (st : SchedState) : Future :=
  { fid := st.nextFid, parentId := cur.fid, exceptionValue := none,
    ended := false, resultValue := none, index := none, executor := (0, 0, 0) }

/-- submit (futures.py lines 221-266): build a child Future parented to
`control.current.id`, register it and append it to the execution queue,
returning the child without ever invoking `callable` (the callable is only
stored in the future).  When no controller is running `control.current` is
None, so `control.current.id` raises AttributeError inside the `try`,
which submit converts to the dedicated NotStartedProperly error. -/
def submitModel (current : Option Future) (st : SchedState)
    (callable : List Value → Except PyErr Value) : Except PyErr (Future × SchedState) :=
  match current with
  | none => Except.error PyErr.notStartedProperly
  | some cur =>
    let _ := callable
    Except.ok (submitChild cur st,
      { queue := st.queue ++ [submitChild cur st], nextFid := st.nextFid + 1 })

/-- Modelled from the spec: the worker-side execution of a Future's user
callable (missing `_types.py`) captures a raised exception into the
future's `exceptionValue` instead of propagating it (spec §7: "captured on
the future and re-raised lazily ... never at submission or at producer
completion time"); a normal return populates the result slot.  Either way
the future becomes ended and the runner returns normally. -/
def runFutureCapture (f : Future) (callable : List Value → Except PyErr Value)
    (args : List Value) : Future :=
  match callable args with
  | Except.ok v => { f with ended := true, resultValue := some v }
  | Except.error e => { f with ended := true, exceptionValue := some e }

/-- A child future as created by the launch loops of mapReduce/mapScan:
fid is its creation position (also its stable per-child sequence number),
parent is the current future's id, and the zipped argument is stored. -/
def mkChild (pid : Nat) (i : Nat) (x : Value) : Future :=
  { fid := i, parentId := pid, exceptionValue := none, ended := false,
    resultValue := none, index := none, executor := (0, 0, 0), arg := x }

/-- The launch loop of mapReduce (futures.py lines 199-212), one child per
zipped argument tuple, in order, starting at position `i`. -/
def mkLaunches (pid : Nat) : Nat → List Value → List Future
  | _, [] => []
  | i, x :: xs => mkChild pid i x :: mkLaunches pid (i + 1) xs

/-- Modelled from the spec: completion of a mapReduce child by the missing
worker runner.  Its result is `mapFunc` applied to its stored zipped
argument, and its `executor` triple carries the worker that ran it
(`execOf`), the stable per-child sequence number, and the per-child
discriminator of the grouping key — spec §4.4 says mapReduce "sorts
children by a stable per-child sequence number, reduces all result values
left-to-right", so the key `(executor[0], executor[2])` is distinct per
child; both sequence components are the child's creation position
(its fid). -/
def completeMR (mapFunc : Value → Value) (execOf : Nat → Nat) (f : Future) : Future :=
  { f with ended := true,
           resultValue := some (mapFunc f.arg),
           executor := (execOf f.fid, f.fid, f.fid) }

/-- Stable insertion step for Python's `sorted(, key=...)`: an element is
placed before the first element of strictly greater key, so earlier
elements stay first among equal keys. -/
def insertByKey (key : Future → Nat) (x : Future) : List Future → List Future
  | [] => [x]
  | y :: ys => if key x ≤ key y then x :: y :: ys else y :: insertByKey key x ys

/-- Python's stable `sorted(l, key=...)` for a Nat-valued key. -/
def sortByKey (key : Future → Nat) : List Future → List Future
  | [] => []
  | x :: xs => insertByKey key x (sortByKey key xs)

/-- Python dict assignment `d[k] = v` on an insertion-ordered dict: an
existing key keeps its position and gets the new value, a fresh key is
appended. -/
def dictInsert (k : Nat × Nat) (v : Value) :
    List ((Nat × Nat) × Value) → List ((Nat × Nat) × Value)
  | [] => [(k, v)]
  | kv :: rest => if kv.1 = k then (k, v) :: rest else kv :: dictInsert k v rest

/-- Python `d.values()` in insertion order. -/
def dictValues (d : List ((Nat × Nat) × Value)) : List Value := d.map (·.2)

/-- Python's `functools.reduce(op, l)` with no initial value: left fold
seeded with the first element; on an empty iterable it raises TypeError,
modelled as `none`. -/
def pyReduce (op : Value → Value → Value) : List Value → Option Value
  | [] => none
  | x :: xs => some (xs.foldl op x)

/-- Modelled from the spec: `Future.result()` of the missing `_types.py`
returns the populated result value; the flows below call it only on
futures whose result slot is populated and whose exception slot is
empty. -/
def futResult (f : Future) : Value := f.resultValue.getD 0

/-- mapReduce (futures.py lines 174-219).  Line 198 builds the callback
group id as `(control.current.id, next(callbackGroupID))` OUTSIDE the
`try/except AttributeError` that guards the Future constructions, so with
no running controller (`control.current` is None) the call raises a plain
AttributeError before any child is created.  Otherwise: launch one child
per argument, wait for all of them (`_waitAll`), sort the finished
children by `executor[1]` with Python's stable sort, store each child's
result in a dict keyed by `(executor[0], executor[2])`, and reduce the
dict's values left-to-right with `functools.reduce` (TypeError when there
are no values). -/
def mapReduceModel (currentId : Option Nat) (mapFunc : Value → Value)
    (op : Value → Value → Value) (inputs : List Value) (execOf : Nat → Nat) :
    Except PyErr Value :=
  match currentId with
  | none => Except.error PyErr.attributeError
  | some pid =>
    let launches := mkLaunches pid 0 inputs
    let completed := yieldsOf (waitAll launches (completeMR mapFunc execOf))
    let sortedChildren := sortByKey (fun f => f.executor.2.1) completed
    let d := sortedChildren.foldl
      (fun d f => dictInsert (f.executor.1, f.executor.2.2) (futResult f) d) []
    match pyReduce op (dictValues d) with
    | some v => Except.ok v
    | none => Except.error PyErr.typeError

/-- The launch loop of mapScan (futures.py lines 150-165).  Unlike
mapReduce, mapScan's group id (`next(callbackGroupID)`, line 151) does not
touch `control.current`, so with no running controller the first loop
iteration's Future construction raises AttributeError inside the `try`
and is converted to NotStartedProperly; with no argument tuples the loop
body never runs and nothing is raised in the launch phase. -/
def mapScanLaunch (currentId : Option Nat) (inputs : List Value) :
    Except PyErr (List Future) :=
  match currentId with
  | none =>
    match inputs with
    | [] => Except.ok []
    | _ :: _ => Except.error PyErr.notStartedProperly
  | some pid => Except.ok (mkLaunches pid 0 inputs)

/-! ## futures.py : wait -/

/-- The `return_when` argument of wait (futures.py lines 33-35). -/
inductive ReturnWhen where
  | firstCompleted
  | firstException
  | allCompleted
deriving DecidableEq, Repr

/-- Observable outcome of a wait call: how many non-blocking queue polls
(`updateQueue`) it performed, how many times it suspended into the
controller, and either the `(done, not_done)` pair or the escaping
exception. -/
structure WaitOut where
  polls : Nat
  suspends : Nat
  result : Except PyErr (List Future × List Future)
deriving DecidableEq, Repr

/-- Python `next()` on a driven generator: consume events up to the first
yield, counting the suspensions consumed on the way; a raised event
propagates, and running out of events with no yield raises
StopIteration. -/
def pyNext : List WEvent → Nat × Except PyErr Future
  | [] => (0, Except.error PyErr.stopIteration)
  | WEvent.yielded f :: _ => (0, Except.ok f)
  | WEvent.raised e :: _ => (0, Except.error e)
  | WEvent.suspended :: rest =>
    let r := pyNext rest
    (r.1 + 1, r.2)

/-- Driving a generator to exhaustion (`for _ in gen: pass`): counts the
suspensions and reports the exception that escapes, if any. -/
def driveAll : List WEvent → Nat × Option PyErr
  | [] => (0, none)
  | WEvent.yielded _ :: rest => driveAll rest
  | WEvent.raised e :: _ => (0, some e)
  | WEvent.suspended :: rest =>
    let r := driveAll rest
    (r.1 + 1, r.2)

/-- State of a future after a blocking wait: if the controller delivered a
future with the same identity its delivered state is current, otherwise
the future is unchanged (futures.py mutates the same objects in place;
the model rebinds by identity). -/
def updateBy (arrivals : List Future) (f : Future) : Future :=
  (arrivals.find? fun a => a.fid == f.fid).getD f

/-- The positive-timeout polling loop of wait (futures.py lines 360-374):
each tick drains the queue non-blockingly (`poll` applied to every
future), recomputes done/not_done, and stops early on FIRST_COMPLETED
with something done or when nothing is left pending; `ticks` is the
number of loop iterations the deadline allows. -/
def waitTimedLoop (rw : ReturnWhen) (poll : Future → Future) :
    Nat → List Future → Nat → Nat × List Future × List Future
  | 0, fsCur, polls => (polls, fsCur.filter (·.ended), fsCur.filter fun f => !f.ended)
  | t + 1, fsCur, polls =>
    let fsNew := fsCur.map poll
    let done := fsNew.filter (·.ended)
    let notDone := fsNew.filter fun f => !f.ended
    if (rw = ReturnWhen.firstCompleted ∧ done ≠ []) ∨ notDone = [] then
      (polls + 1, done, notDone)
    else
      waitTimedLoop rw poll t fsNew (polls + 1)

/-- wait (futures.py lines 318-374).  Negative timeout: block through
`next(_waitAny(*fs))` (FIRST_COMPLETED) or by exhausting `_waitAll(*fs)`
(ALL_COMPLETED / FIRST_EXCEPTION), then split `fs` into done and
not_done; an exception escaping the generators (including StopIteration
from `next` on an empty generator) escapes wait.  Zero timeout: exactly
one non-blocking `updateQueue` poll, no suspension, then the split.
Positive timeout: the repeated-poll loop. -/
def waitModel (fs : List Future) (timeout : Int) (rw : ReturnWhen)
    (arrivals : List Future) (poll : Future → Future) (ticks : Nat) : WaitOut :=
  if timeout < 0 then
    if rw = ReturnWhen.firstCompleted then
      let r := pyNext (waitAny fs arrivals).events
      match r.2 with
      | Except.error e => { polls := 0, suspends := r.1, result := Except.error e }
      | Except.ok _ =>
        let fsU := fs.map (updateBy arrivals)
        { polls := 0, suspends := r.1,
          result := Except.ok (fsU.filter (·.ended), fsU.filter fun f => !f.ended) }
    else
      let r := driveAll (waitAll fs (updateBy arrivals))
      match r.2 with
      | some e => { polls := 0, suspends := r.1, result := Except.error e }
      | none =>
        let fsU := fs.map (updateBy arrivals)
        { polls := 0, suspends := r.1,
          result := Except.ok (fsU.filter (·.ended), fsU.filter fun f => !f.ended) }
  else if timeout = 0 then
    let fsP := fs.map poll
    { polls := 1, suspends := 0,
      result := Except.ok (fsP.filter (·.ended), fsP.filter fun f => !f.ended) }
  else
    let r := waitTimedLoop rw poll ticks fs 0
    { polls := r.1, suspends := 0, result := Except.ok (r.2.1, r.2.2) }

/-! ## Claims about control.py -/

/-- C1: the runController loop exits only when the task that just yielded
control back has the root sentinel as its parentId, has a populated
result, and this worker is the origin; on a non-origin worker the loop
never exits; and on exit the queue connection is shut down and the root
task's result is returned to the caller. -/
theorem runController_exit_only_origin_root :
    (∀ (b : Bool) (task : CTask) (events : List CTask) (out : ControllerOut),
        runControllerLoop b task events = some out →
        b = true ∧ out.exitTask.parentId = rootId ∧ out.exitTask.result ≠ none ∧
        out.socketShutdown = true ∧ out.returned = out.exitTask.result) ∧
    ∀ (task : CTask) (events : List CTask),
        runControllerLoop false task events = none := by
  constructor
  · intro b task events out
    induction events generalizing task with
    | nil =>
      intro h
      rw [runControllerLoop] at h
      by_cases hc : (task.parentId ≠ rootId ∨ task.result = none) ∨ b = false
      · rw [if_pos hc] at h
        simp at h
      · rw [if_neg hc] at h
        push_neg at hc
        obtain ⟨⟨h1, h2⟩, h3⟩ := hc
        cases h
        exact ⟨by simpa using h3, h1, h2, rfl, rfl⟩
    | cons nextTask rest ih =>
      intro h
      rw [runControllerLoop] at h
      by_cases hc : (task.parentId ≠ rootId ∨ task.result = none) ∨ b = false
      · rw [if_pos hc] at h
        exact ih nextTask h
      · rw [if_neg hc] at h
        push_neg at hc
        obtain ⟨⟨h1, h2⟩, h3⟩ := hc
        cases h
        exact ⟨by simpa using h3, h1, h2, rfl, rfl⟩
  · intro task events
    induction events generalizing task with
    | nil =>
      rw [runControllerLoop, if_pos (Or.inr rfl)]
    | cons nextTask rest ih =>
      rw [runControllerLoop, if_pos (Or.inr rfl)]
      exact ih nextTask

/-- Witness for C1: a concrete origin-worker run whose resumed task is the
root (parentId is the sentinel) with a populated result exits at once,
shutting the socket down and returning that result. -/
theorem runController_exit_only_origin_root_witness :
    true = true ∧
    (⟨⟨rootId, 0, some 5, none, true⟩, true, some 5⟩ : ControllerOut).exitTask.parentId
      = rootId ∧
    (⟨⟨rootId, 0, some 5, none, true⟩, true, some 5⟩ : ControllerOut).exitTask.result
      ≠ none ∧
    (⟨⟨rootId, 0, some 5, none, true⟩, true, some 5⟩ : ControllerOut).socketShutdown
      = true ∧
    (⟨⟨rootId, 0, some 5, none, true⟩, true, some 5⟩ : ControllerOut).returned =
    (⟨⟨rootId, 0, some 5, none, true⟩, true, some 5⟩ : ControllerOut).exitTask.result :=
  runController_exit_only_origin_root.1 true ⟨rootId, 0, some 5, none, true⟩ []
    ⟨⟨rootId, 0, some 5, none, true⟩, true, some 5⟩ (by decide)

/-- C6: a task whose callable returns an absent value makes runTask raise
the assertion failure immediately after the callable runs — before the
done-callback fires and before the task is returned to the controller —
so the task is never silently treated as still pending. -/
theorem runTask_absent_result_asserts (t : RTask) (h : t.callable t.args = none) :
    runTask t = ⟨Except.error PyErr.assertionError, [RTEvent.assertFailed]⟩ ∧
    RTEvent.callbackInvoked ∉ (runTask t).trace ∧
    RTEvent.returnedTask ∉ (runTask t).trace := by
  have e : runTask t = ⟨Except.error PyErr.assertionError, [RTEvent.assertFailed]⟩ := by
    unfold runTask
    rw [h]
  refine ⟨e, ?_, ?_⟩ <;> rw [e] <;> simp

/-- Witness for C6: a concrete task returning the absent value. -/
theorem runTask_absent_result_asserts_witness :
    runTask ⟨[], fun _ => none, none, none⟩ =
      ⟨Except.error PyErr.assertionError, [RTEvent.assertFailed]⟩ ∧
    RTEvent.callbackInvoked ∉ (runTask ⟨[], fun _ => none, none, none⟩).trace ∧
    RTEvent.returnedTask ∉ (runTask ⟨[], fun _ => none, none, none⟩).trace :=
  runTask_absent_result_asserts ⟨[], fun _ => none, none, none⟩ rfl

/-- C7: with a done-callback attached and a task body that returns a
value, runTask invokes the callback exactly once, after the body returned
(the callback sees the populated result) and before the task is handed
back to the controller; whether or not the callback raises, runTask still
returns normally with the task's result, so the raise is swallowed and
neither delivery to the waiter nor the controller loop (and with it the
sibling tasks it keeps scheduling) is affected. -/
theorem runTask_callback_once_swallowed (t : RTask) (v : Value)
    (cb : Option Value → Except PyErr Unit)
    (hres : t.callable t.args = some v) (hcb : t.callback = some cb) :
    (runTask t).outcome = Except.ok (some v) ∧
    ((runTask t).trace.count RTEvent.callbackInvoked) = 1 ∧
    ((runTask t).trace = [RTEvent.callbackInvoked, RTEvent.returnedTask] ∨
     (runTask t).trace =
       [RTEvent.callbackInvoked, RTEvent.callbackRaised, RTEvent.returnedTask]) := by
  simp only [runTask, hres, hcb]
  cases hc : cb (some v) with
  | ok u => simp [hc]
  | error e => simp [hc]

/-- Witness for C7: a concrete task whose callback raises; the result is
still delivered and the callback ran exactly once, between body return
and handing the task back. -/
theorem runTask_callback_once_swallowed_witness :
    (runTask ⟨[], fun _ => some 7,
        some fun _ => Except.error (PyErr.userError 0), none⟩).outcome =
      Except.ok (some 7) ∧
    ((runTask ⟨[], fun _ => some 7,
        some fun _ => Except.error (PyErr.userError 0), none⟩).trace.count
      RTEvent.callbackInvoked) = 1 ∧
    ((runTask ⟨[], fun _ => some 7,
        some fun _ => Except.error (PyErr.userError 0), none⟩).trace =
      [RTEvent.callbackInvoked, RTEvent.returnedTask] ∨
     (runTask ⟨[], fun _ => some 7,
        some fun _ => Except.error (PyErr.userError 0), none⟩).trace =
      [RTEvent.callbackInvoked, RTEvent.callbackRaised, RTEvent.returnedTask]) :=
  runTask_callback_once_swallowed
    ⟨[], fun _ => some 7, some fun _ => Except.error (PyErr.userError 0), none⟩
    7 (fun _ => Except.error (PyErr.userError 0)) rfl rfl

/-! ## Claims about wait -/

/-- C9: wait with a zero timeout never suspends the caller: it performs
exactly one non-blocking poll of the pending-work queue and immediately
returns the pair whose done component is exactly the futures of fs
finished after that poll and whose not_done component is the rest. -/
theorem wait_zero_timeout_single_poll (fs : List Future) (rw_ : ReturnWhen)
    (arrivals : List Future) (poll : Future → Future) (ticks : Nat) :
    waitModel fs 0 rw_ arrivals poll ticks =
      { polls := 1, suspends := 0,
        result := Except.ok ((fs.map poll).filter (·.ended),
                             (fs.map poll).filter fun f => !f.ended) } := by
  unfold waitModel
  rw [if_neg (by norm_num), if_pos rfl]

/-- C10: wait on the empty sequence with a blocking (negative) timeout and
FIRST_COMPLETED calls next() on the empty _waitAny generator, whose
StopIteration escapes wait instead of the documented pair of sets. -/
theorem wait_blocking_empty_first_completed_stopiteration :
    waitModel [] (-1) ReturnWhen.firstCompleted [] (fun f => f) 0 =
      { polls := 0, suspends := 0, result := Except.error PyErr.stopIteration } := by
  decide

/-! ## Lemmas about _waitAny and _waitAll -/

/-- Restatement of the spec's index-assignment sentence: each unfinished
child receives its position in the input order, finished children are
left untouched. -/
def markUnfinished : List Future → Nat → List Future
  | [], _ => []
  | f :: rest, i =>
    (if f.ended then f else { f with index := some i }) :: markUnfinished rest (i + 1)

theorem waitAnyScan_no_exc (children : List Future) (i : Nat)
    (h : ∀ f ∈ children, f.exceptionValue = none) :
    waitAnyScan children i =
      ((children.filter (·.ended)).map WEvent.yielded,
       markUnfinished children i,
       (children.filter fun f => !f.ended).length) := by
  induction children generalizing i with
  | nil => rfl
  | cons f rest ih =>
    have hf : f.exceptionValue = none := h f (List.mem_cons_self f rest)
    have hrest : ∀ g ∈ rest, g.exceptionValue = none :=
      fun g hg => h g (List.mem_cons_of_mem f hg)
    simp only [waitAnyScan, hf]
    rw [ih (i + 1) hrest]
    by_cases he : f.ended = true
    · simp [markUnfinished, he, List.filter_cons]
    · simp only [Bool.not_eq_true] at he
      simp [markUnfinished, he, hf, List.filter_cons]

theorem waitAnyLoop_head (n : Nat) (arr : List Future) :
    waitAnyLoop n arr = [] ∨ ∃ rest, waitAnyLoop n arr = WEvent.suspended :: rest := by
  cases n with
  | zero => exact Or.inl rfl
  | succ m =>
    cases arr with
    | nil => exact Or.inr ⟨[], rfl⟩
    | cons a rest =>
      cases h : a.exceptionValue with
      | some e => exact Or.inr ⟨[WEvent.raised e], by simp [waitAnyLoop, h]⟩
      | none =>
        exact Or.inr ⟨WEvent.yielded a :: waitAnyLoop m rest, by simp [waitAnyLoop, h]⟩

theorem takeWhile_yields_first (l1 l2 : List WEvent)
    (h1 : ∀ e ∈ l1, e.isYield = true)
    (h2 : l2 = [] ∨ ∃ rest, l2 = WEvent.suspended :: rest) :
    (l1 ++ l2).takeWhile WEvent.isYield = l1 := by
  induction l1 with
  | nil =>
    rcases h2 with h | ⟨rest, h⟩ <;> subst h <;> simp [List.takeWhile, WEvent.isYield]
  | cons e l1 ih =>
    have he : e.isYield = true := h1 e (List.mem_cons_self e l1)
    simp only [List.cons_append, List.takeWhile_cons, he, if_true]
    rw [ih fun x hx => h1 x (List.mem_cons_of_mem e hx)]

theorem yieldsOf_append (l1 l2 : List WEvent) :
    yieldsOf (l1 ++ l2) = yieldsOf l1 ++ yieldsOf l2 := by
  simp [yieldsOf]

theorem yieldsOf_waitAny_single (f d : Future) (hf : f.exceptionValue = none)
    (hd : f.ended = false → d.exceptionValue = none) :
    yieldsOf (waitAny [f] [d]).events = [if f.ended then f else d] := by
  by_cases he : f.ended = true
  · simp [waitAny, waitAnyScan, hf, he, waitAnyLoop, yieldsOf]
  · simp only [Bool.not_eq_true] at he
    have hd2 := hd he
    simp [waitAny, waitAnyScan, hf, he, waitAnyLoop, hd2, yieldsOf]

theorem yieldsOf_waitAll (children : List Future) (deliver : Future → Future)
    (hne : ∀ f ∈ children, f.exceptionValue = none)
    (hdel : ∀ f ∈ children, f.ended = false → (deliver f).exceptionValue = none) :
    yieldsOf (waitAll children deliver) =
      children.map fun f => if f.ended then f else deliver f := by
  induction children with
  | nil => rfl
  | cons f rest ih =>
    have h1 : f.exceptionValue = none := hne f (List.mem_cons_self f rest)
    have h2 : f.ended = false → (deliver f).exceptionValue = none :=
      hdel f (List.mem_cons_self f rest)
    have hne2 : ∀ g ∈ rest, g.exceptionValue = none :=
      fun g hg => hne g (List.mem_cons_of_mem f hg)
    have hdel2 : ∀ g ∈ rest, g.ended = false → (deliver g).exceptionValue = none :=
      fun g hg => hdel g (List.mem_cons_of_mem f hg)
    have step : waitAll (f :: rest) deliver =
        (waitAny [f] [deliver f]).events ++ waitAll rest deliver := by
      simp [waitAll]
    rw [step, yieldsOf_append, yieldsOf_waitAny_single f (deliver f) h1 h2, ih hne2 hdel2]
    rfl

/-! ## Claims about _waitAny and _waitAll -/

/-- C2: before any suspension _waitAny scans the children in input order,
yielding every already-finished child immediately in that order (the
events before the first suspension are exactly those yields) and
assigning each unfinished child its positional cohort index; in
particular with two children whose first is already resolved, the very
first event is that child's yield — no suspension precedes it. -/
theorem waitAny_prescan_order (children arrivals : List Future)
    (h : ∀ f ∈ children, f.exceptionValue = none) :
    (waitAny children arrivals).events.takeWhile WEvent.isYield =
      (children.filter (·.ended)).map WEvent.yielded ∧
    (waitAny children arrivals).marked = markUnfinished children 0 ∧
    ∀ (f1 f2 : Future) (arr : List Future), f1.exceptionValue = none → f1.ended = true →
      (waitAny [f1, f2] arr).events.head? = some (WEvent.yielded f1) := by
  refine ⟨?_, ?_, ?_⟩
  · show ((waitAnyScan children 0).1 ++
        waitAnyLoop (waitAnyScan children 0).2.2 arrivals).takeWhile WEvent.isYield = _
    rw [waitAnyScan_no_exc children 0 h]
    refine takeWhile_yields_first _ _ ?_ (waitAnyLoop_head _ _)
    intro e he
    rw [List.mem_map] at he
    obtain ⟨x, hx, rfl⟩ := he
    rfl
  · show (waitAnyScan children 0).2.1 = _
    rw [waitAnyScan_no_exc children 0 h]
  · intro f1 f2 arr h1 h2
    simp only [waitAny, waitAnyScan, h1, h2, if_true]
    rfl

/-- Witness for C2: a resolved first child and a pending second child;
the finished child is the first event (yielded before any suspension) and
the pending child is marked with cohort index 1. -/
theorem waitAny_prescan_order_witness :
    (waitAny [⟨0, 0, none, true, some 1, none, (0, 0, 0), 0⟩,
              ⟨1, 0, none, false, none, none, (0, 0, 0), 0⟩] []).events.takeWhile
        WEvent.isYield =
      [WEvent.yielded ⟨0, 0, none, true, some 1, none, (0, 0, 0), 0⟩] ∧
    (waitAny [⟨0, 0, none, true, some 1, none, (0, 0, 0), 0⟩,
              ⟨1, 0, none, false, none, none, (0, 0, 0), 0⟩] []).marked =
      [⟨0, 0, none, true, some 1, none, (0, 0, 0), 0⟩,
       ⟨1, 0, none, false, none, some 1, (0, 0, 0), 0⟩] ∧
    (waitAny [⟨0, 0, none, true, some 1, none, (0, 0, 0), 0⟩,
              ⟨1, 0, none, false, none, none, (0, 0, 0), 0⟩] []).events.head? =
      some (WEvent.yielded ⟨0, 0, none, true, some 1, none, (0, 0, 0), 0⟩) :=
  ⟨(waitAny_prescan_order
      [⟨0, 0, none, true, some 1, none, (0, 0, 0), 0⟩,
       ⟨1, 0, none, false, none, none, (0, 0, 0), 0⟩] [] (by decide)).1,
   (waitAny_prescan_order
      [⟨0, 0, none, true, some 1, none, (0, 0, 0), 0⟩,
       ⟨1, 0, none, false, none, none, (0, 0, 0), 0⟩] [] (by decide)).2.1,
   (waitAny_prescan_order
      [⟨0, 0, none, true, some 1, none, (0, 0, 0), 0⟩,
       ⟨1, 0, none, false, none, none, (0, 0, 0), 0⟩] [] (by decide)).2.2
      ⟨0, 0, none, true, some 1, none, (0, 0, 0), 0⟩
      ⟨1, 0, none, false, none, none, (0, 0, 0), 0⟩ [] rfl rfl⟩

/-- C3: for children with no inter-dependencies (no captured exceptions,
and the controller delivering each pending child itself), _waitAll yields
exactly one future per child, in the children's input order regardless of
completion order (the yields are the children, already-done ones as they
are and the others as delivered, with matching identities position by
position), and _waitAll is exactly _waitAny applied to each child
independently with the results concatenated in input order. -/
theorem waitAll_input_order (children : List Future) (deliver : Future → Future)
    (hne : ∀ f ∈ children, f.exceptionValue = none)
    (hdel : ∀ f ∈ children, f.ended = false →
      (deliver f).exceptionValue = none ∧ (deliver f).fid = f.fid) :
    yieldsOf (waitAll children deliver) =
      children.map (fun f => if f.ended then f else deliver f) ∧
    (yieldsOf (waitAll children deliver)).length = children.length ∧
    (yieldsOf (waitAll children deliver)).map (·.fid) = children.map (·.fid) ∧
    waitAll children deliver =
      (children.map fun f => (waitAny [f] [deliver f]).events).flatten := by
  have main := yieldsOf_waitAll children deliver hne fun f hf hh => (hdel f hf hh).1
  refine ⟨main, ?_, ?_, rfl⟩
  · rw [main, List.length_map]
  · rw [main, List.map_map]
    apply List.map_congr_left
    intro f hf
    by_cases he : f.ended = true
    · simp [he]
    · simp only [Bool.not_eq_true] at he
      simp [Function.comp, he, (hdel f hf he).2]

/-- Witness for C3: two independent children, the first already done and
the second pending and delivered by the controller; _waitAll yields both,
in input order. -/
theorem waitAll_input_order_witness :
    yieldsOf (waitAll [⟨0, 0, none, true, some 1, none, (0, 0, 0), 0⟩,
                       ⟨1, 0, none, false, none, none, (0, 0, 0), 0⟩]
        (fun f => { f with ended := true, resultValue := some 9 })) =
      [⟨0, 0, none, true, some 1, none, (0, 0, 0), 0⟩,
       ⟨1, 0, none, true, some 9, none, (0, 0, 0), 0⟩] ∧
    (yieldsOf (waitAll [⟨0, 0, none, true, some 1, none, (0, 0, 0), 0⟩,
                        ⟨1, 0, none, false, none, none, (0, 0, 0), 0⟩]
        (fun f => { f with ended := true, resultValue := some 9 }))).map (·.fid) =
      [0, 1] :=
  ⟨(waitAll_input_order
      [⟨0, 0, none, true, some 1, none, (0, 0, 0), 0⟩,
       ⟨1, 0, none, false, none, none, (0, 0, 0), 0⟩]
      (fun f => { f with ended := true, resultValue := some 9 })
      (by decide) (by decide)).1,
   (waitAll_input_order
      [⟨0, 0, none, true, some 1, none, (0, 0, 0), 0⟩,
       ⟨1, 0, none, false, none, none, (0, 0, 0), 0⟩]
      (fun f => { f with ended := true, resultValue := some 9 })
      (by decide) (by decide)).2.2.1⟩

/-! ## Claims about exception propagation and startup misuse -/

/-- C5: an exception raised by the user callable is not raised at submit
time — submit succeeds, only stores the callable, and behaves exactly as
it would for a non-raising callable — nor at producer completion time —
the capture runner returns normally, recording the exception on the
future.  It is re-raised exactly at the first point a waiter asks for the
future's value: _waitAny raises it in its pre-suspension scan when the
future is already resolved, or right after the controller delivers it
when it was pending, and _waitAll (hence join, built on them) does the
same.  The capture itself lives in the Future class missing from src/
and is modelled from the spec. -/
theorem exception_captured_reraised_at_wait (cur : Future) (st : SchedState)
    (c : List Value → Except PyErr Value) (args : List Value) (e : PyErr)
    (hc : c args = Except.error e) :
    submitModel (some cur) st c = submitModel (some cur) st (fun _ => Except.ok 0) ∧
    (submitModel (some cur) st c).isOk = true ∧
    (submitChild cur st).exceptionValue = none ∧
    (submitChild cur st).ended = false ∧
    (runFutureCapture (submitChild cur st) c args).exceptionValue = some e ∧
    (runFutureCapture (submitChild cur st) c args).ended = true ∧
    (waitAny [runFutureCapture (submitChild cur st) c args] []).events =
      [WEvent.raised e] ∧
    (waitAny [submitChild cur st]
        [runFutureCapture (submitChild cur st) c args]).events =
      [WEvent.suspended, WEvent.raised e] ∧
    waitAll [submitChild cur st] (fun f => runFutureCapture f c args) =
      [WEvent.suspended, WEvent.raised e] := by
  have hrun : runFutureCapture (submitChild cur st) c args =
      { submitChild cur st with ended := true, exceptionValue := some e } := by
    unfold runFutureCapture
    rw [hc]
  refine ⟨rfl, rfl, rfl, rfl, ?_, ?_, ?_, ?_, ?_⟩
  · rw [hrun]
  · rw [hrun]
  · rw [hrun]; rfl
  · rw [hrun]; rfl
  · simp only [waitAll, List.map_cons, List.map_nil, List.flatten]
    rw [hrun]
    simp [waitAny, waitAnyScan, waitAnyLoop, submitChild]

/-- Witness for C5: a concrete raising callable; submit succeeds, the
producer completes normally with the exception captured, and the wait
primitives re-raise it. -/
theorem exception_captured_reraised_at_wait_witness :
    (submitModel (some ⟨0, 0, none, true, some 0, none, (0, 0, 0), 0⟩) ⟨[], 1⟩
        fun _ => Except.error (PyErr.userError 3)).isOk = true ∧
    (waitAny [runFutureCapture
        (submitChild ⟨0, 0, none, true, some 0, none, (0, 0, 0), 0⟩ ⟨[], 1⟩)
        (fun _ => Except.error (PyErr.userError 3)) []] []).events =
      [WEvent.raised (PyErr.userError 3)] ∧
    (waitAny [submitChild ⟨0, 0, none, true, some 0, none, (0, 0, 0), 0⟩ ⟨[], 1⟩]
        [runFutureCapture
          (submitChild ⟨0, 0, none, true, some 0, none, (0, 0, 0), 0⟩ ⟨[], 1⟩)
          (fun _ => Except.error (PyErr.userError 3)) []]).events =
      [WEvent.suspended, WEvent.raised (PyErr.userError 3)] :=
  ⟨(exception_captured_reraised_at_wait ⟨0, 0, none, true, some 0, none, (0, 0, 0), 0⟩
      ⟨[], 1⟩ (fun _ => Except.error (PyErr.userError 3)) [] (PyErr.userError 3)
      rfl).2.1,
   (exception_captured_reraised_at_wait ⟨0, 0, none, true, some 0, none, (0, 0, 0), 0⟩
      ⟨[], 1⟩ (fun _ => Except.error (PyErr.userError 3)) [] (PyErr.userError 3)
      rfl).2.2.2.2.2.2.1,
   (exception_captured_reraised_at_wait ⟨0, 0, none, true, some 0, none, (0, 0, 0), 0⟩
      ⟨[], 1⟩ (fun _ => Except.error (PyErr.userError 3)) [] (PyErr.userError 3)
      rfl).2.2.2.2.2.2.2.1⟩

/-- C8 counterexample: with no Controller running, mapReduce — a
future-creation call — does not fail with the dedicated NotStartedProperly
error kind: building its callback-group id dereferences
`control.current.id` outside the guarded try (futures.py line 198), so a
plain AttributeError escapes instead. -/
theorem mapReduce_notStarted_plain_attributeError :
    mapReduceModel none (fun v => v) (fun a b => a + b) [1] (fun _ => 0) =
      Except.error PyErr.attributeError ∧
    (Except.error PyErr.attributeError : Except PyErr Value) ≠
      Except.error PyErr.notStartedProperly :=
  ⟨rfl, by decide⟩

/-- C8 amended: submit invoked with no running Controller fails
immediately with the dedicated NotStartedProperly error, distinguishable
from the generic attribute failure and from user exceptions, and so does
mapScan's future-creation loop (for any nonempty argument batch); but
mapReduce instead raises a plain AttributeError from its callback-group
id construction before reaching the guarded Future creation. -/
theorem notStarted_dedicated_error :
    (∀ (st : SchedState) (c : List Value → Except PyErr Value),
        submitModel none st c = Except.error PyErr.notStartedProperly) ∧
    (∀ (x : Value) (xs : List Value),
        mapScanLaunch none (x :: xs) = Except.error PyErr.notStartedProperly) ∧
    (∀ (mf : Value → Value) (op : Value → Value → Value) (inputs : List Value)
        (execOf : Nat → Nat),
        mapReduceModel none mf op inputs execOf = Except.error PyErr.attributeError) ∧
    PyErr.notStartedProperly ≠ PyErr.attributeError ∧
    ∀ n : Nat, PyErr.notStartedProperly ≠ PyErr.userError n := by
  refine ⟨fun st c => rfl, fun x xs => rfl, fun mf op inputs execOf => rfl,
    by decide, ?_⟩
  intro n h
  exact PyErr.noConfusion h

/-- Witness for the amended C8: concrete not-started submit and mapScan
calls produce the dedicated error. -/
theorem notStarted_dedicated_error_witness :
    submitModel none ⟨[], 0⟩ (fun _ => Except.ok 0) =
      Except.error PyErr.notStartedProperly ∧
    mapScanLaunch none [1] = Except.error PyErr.notStartedProperly ∧
    PyErr.notStartedProperly ≠ PyErr.userError 7 :=
  ⟨notStarted_dedicated_error.1 ⟨[], 0⟩ (fun _ => Except.ok 0),
   notStarted_dedicated_error.2.1 1 [],
   notStarted_dedicated_error.2.2.2.2 7⟩

/-! ## Lemmas for the mapReduce pipeline -/

theorem mkLaunches_mem_basic (pid : Nat) :
    ∀ (l : List Value) (i : Nat) (f : Future), f ∈ mkLaunches pid i l →
      f.exceptionValue = none ∧ f.ended = false := by
  intro l
  induction l with
  | nil => intro i f hf; simp [mkLaunches] at hf
  | cons x xs ih =>
    intro i f hf
    rcases List.mem_cons.mp hf with rfl | hf
    · exact ⟨rfl, rfl⟩
    · exact ih (i + 1) f hf

theorem mkLaunches_done_mem (mf : Value → Value) (execOf : Nat → Nat) (pid : Nat) :
    ∀ (l : List Value) (i : Nat) (g : Future),
      g ∈ (mkLaunches pid i l).map (completeMR mf execOf) →
      i ≤ g.executor.2.2 ∧ g.executor.2.1 = g.executor.2.2 := by
  intro l
  induction l with
  | nil => intro i g hg; simp [mkLaunches] at hg
  | cons x xs ih =>
    intro i g hg
    simp only [mkLaunches, List.map_cons, List.mem_cons] at hg
    rcases hg with rfl | hg
    · exact ⟨Nat.le_refl i, rfl⟩
    · have h := ih (i + 1) g hg
      exact ⟨Nat.le_trans (Nat.le_succ i) h.1, h.2⟩

theorem mkLaunches_done_chain (mf : Value → Value) (execOf : Nat → Nat) (pid : Nat) :
    ∀ (l : List Value) (i : Nat),
      List.Chain' (fun a b => a.executor.2.1 < b.executor.2.1)
        ((mkLaunches pid i l).map (completeMR mf execOf)) := by
  intro l
  induction l with
  | nil => intro i; simp [mkLaunches]
  | cons x xs ih =>
    intro i
    simp only [mkLaunches, List.map_cons]
    rw [List.chain'_cons']
    refine ⟨?_, ih (i + 1)⟩
    intro y hy
    have hmem : y ∈ (mkLaunches pid (i + 1) xs).map (completeMR mf execOf) :=
      List.mem_of_mem_head? hy
    have hb := mkLaunches_done_mem mf execOf pid xs (i + 1) y hmem
    show i < y.executor.2.1
    rw [hb.2]
    exact Nat.lt_of_succ_le hb.1

theorem mkLaunches_done_pairwise (mf : Value → Value) (execOf : Nat → Nat) (pid : Nat) :
    ∀ (l : List Value) (i : Nat),
      List.Pairwise
        (fun a b => (a.executor.1, a.executor.2.2) ≠ (b.executor.1, b.executor.2.2))
        ((mkLaunches pid i l).map (completeMR mf execOf)) := by
  intro l
  induction l with
  | nil => intro i; simp [mkLaunches]
  | cons x xs ih =>
    intro i
    simp only [mkLaunches, List.map_cons]
    refine List.Pairwise.cons ?_ (ih (i + 1))
    intro b hb h
    have hge := (mkLaunches_done_mem mf execOf pid xs (i + 1) b hb).1
    have hsnd : i = b.executor.2.2 := congrArg Prod.snd h
    rw [← hsnd] at hge
    exact Nat.not_succ_le_self i hge

theorem mkLaunches_done_results (mf : Value → Value) (execOf : Nat → Nat) (pid : Nat) :
    ∀ (l : List Value) (i : Nat),
      ((mkLaunches pid i l).map (completeMR mf execOf)).map futResult = l.map mf := by
  intro l
  induction l with
  | nil => intro i; rfl
  | cons x xs ih =>
    intro i
    simp only [mkLaunches, List.map_cons, ih (i + 1)]
    rfl

theorem sortByKey_of_chain (key : Future → Nat) :
    ∀ (l : List Future), List.Chain' (fun a b => key a < key b) l →
      sortByKey key l = l := by
  intro l
  induction l with
  | nil => intro h; rfl
  | cons x xs ih =>
    intro h
    rw [sortByKey, ih h.tail]
    cases xs with
    | nil => rfl
    | cons y ys =>
      have hxy : key x < key y := (List.chain'_cons.mp h).1
      simp [insertByKey, Nat.le_of_lt hxy]

theorem dictInsert_fresh (k : Nat × Nat) (v : Value) :
    ∀ (d : List ((Nat × Nat) × Value)), (∀ kv ∈ d, kv.1 ≠ k) →
      dictInsert k v d = d ++ [(k, v)] := by
  intro d
  induction d with
  | nil => intro h; rfl
  | cons kv rest ih =>
    intro h
    have h1 : kv.1 ≠ k := h kv (List.mem_cons_self kv rest)
    simp only [dictInsert, if_neg h1, List.cons_append]
    rw [ih fun x hx => h x (List.mem_cons_of_mem kv hx)]

theorem dict_fold_values :
    ∀ (l : List Future) (d : List ((Nat × Nat) × Value)),
      (∀ f ∈ l, ∀ kv ∈ d, kv.1 ≠ (f.executor.1, f.executor.2.2)) →
      List.Pairwise
        (fun a b => (a.executor.1, a.executor.2.2) ≠ (b.executor.1, b.executor.2.2)) l →
      dictValues (l.foldl
          (fun d f => dictInsert (f.executor.1, f.executor.2.2) (futResult f) d) d) =
        dictValues d ++ l.map futResult := by
  intro l
  induction l with
  | nil => intro d _ _; simp [dictValues]
  | cons f rest ih =>
    intro d hfresh hpw
    rw [List.foldl_cons,
      dictInsert_fresh _ _ d fun kv hkv => hfresh f (List.mem_cons_self f rest) kv hkv]
    rw [ih (d ++ [((f.executor.1, f.executor.2.2), futResult f)]) ?_ hpw.of_cons]
    · simp [dictValues]
    · intro g hg kv hkv
      rcases List.mem_append.mp hkv with hkv | hkv
      · exact hfresh g (List.mem_cons_of_mem f hg) kv hkv
      · have hkv1 : kv = ((f.executor.1, f.executor.2.2), futResult f) := by
          simpa using hkv
        rw [hkv1]
        exact List.rel_of_pairwise_cons hpw hg

/-! ## Claim about mapReduce -/

/-- C4: with a running controller, once all children complete, mapReduce
returns the left-to-right reduction by the binary operator of all the
children's result values taken in ascending order of their stable
per-child sequence number — every child's result enters exactly once —
and in particular the identity map with addition over [1, 2, 3, 4]
returns 10. -/
theorem mapReduce_sequence_order_reduction :
    (∀ (pid : Nat) (mf : Value → Value) (op : Value → Value → Value)
        (x : Value) (xs : List Value) (execOf : Nat → Nat),
        mapReduceModel (some pid) mf op (x :: xs) execOf =
          Except.ok ((xs.map mf).foldl op (mf x))) ∧
    mapReduceModel (some 0) (fun v => v) (fun a b => a + b) [1, 2, 3, 4]
        (fun _ => 0) = Except.ok 10 := by
  constructor
  · intro pid mf op x xs execOf
    have hne : ∀ f ∈ mkLaunches pid 0 (x :: xs), f.exceptionValue = none :=
      fun f hf => (mkLaunches_mem_basic pid (x :: xs) 0 f hf).1
    have hdel : ∀ f ∈ mkLaunches pid 0 (x :: xs), f.ended = false →
        (completeMR mf execOf f).exceptionValue = none := by
      intro f hf _
      show f.exceptionValue = none
      exact (mkLaunches_mem_basic pid (x :: xs) 0 f hf).1
    have hcompleted :
        yieldsOf (waitAll (mkLaunches pid 0 (x :: xs)) (completeMR mf execOf)) =
          (mkLaunches pid 0 (x :: xs)).map (completeMR mf execOf) := by
      rw [yieldsOf_waitAll _ _ hne hdel]
      apply List.map_congr_left
      intro f hf
      rw [(mkLaunches_mem_basic pid (x :: xs) 0 f hf).2]
      simp
    simp only [mapReduceModel]
    rw [hcompleted,
      sortByKey_of_chain _ _ (mkLaunches_done_chain mf execOf pid (x :: xs) 0),
      dict_fold_values _ [] (by simp) (mkLaunches_done_pairwise mf execOf pid (x :: xs) 0),
      mkLaunches_done_results mf execOf pid (x :: xs) 0]
    simp only [dictValues, List.map_nil, List.nil_append, List.map_cons]
    rfl
  · decide

end Scoop
